import Mathlib

/-!
Verification development for the ZooKeeper-based consumer module
(`core/internal/consumer` package, file embedding the `KafkaZkClient` type).

The module mirrors a hierarchical ZooKeeper tree of consumer-group offsets:
group list → per-group topic record → per-group partition children →
per-partition offset leaf.  We embed the module's pure decision logic and its
effectful reset/scan functions as explicit state-passing Lean functions over a
ZooKeeper environment (`ZkEnv`).  Goroutine spawns of watch-continuation tasks
are recorded as `WatchReg` entries; storage sends as `StorageRequest` entries;
a Go runtime panic (the nil `err.Error()` dereference in the offset decode
failure branch) is modelled as `Option.none` propagating out of a run.
-/

namespace BurrowZk

/-- Stat metadata returned by ZooKeeper `GetW` (only `Mtime` is consulted,
as the `int64` modified-time of the node). -/
structure ZkStat where
  Mtime : Int
deriving DecidableEq, Repr

/-- A JSON value, the wire format handed to `encoding/json`'s `Unmarshal`.
Numbers are restricted to integers (the payloads consulted carry only
integer fields). -/
inductive Json where
  | null : Json
  | bool (b : Bool) : Json
  | num (n : Int) : Json
  | str (s : String) : Json
  | arr (xs : List Json) : Json
  | obj (fields : List (String × Json)) : Json

/-- The `Transform` record of the source: `Topic string`, `PartitionId int32`,
`Offset int64`, with json tags "topic", "partitionId", "offset".  Machine
integers are carried as `Int`; range checks happen at decode time. -/
structure Transform where
  Topic : String
  PartitionId : Int
  Offset : Int
deriving DecidableEq, Repr

/-- The zero value of `Transform`, as produced by `var t Transform` in Go. -/
def Transform.zero : Transform := ⟨"", 0, 0⟩

def int32Min : Int := -(2 ^ 31)
def int32Max : Int := 2 ^ 31 - 1
def int64Min : Int := -(2 ^ 63)
def int64Max : Int := 2 ^ 63 - 1

/-- One step of `json.Unmarshal` into a `Transform`: apply a single object
field to the record being built.  A known key with a mismatched type (or an
out-of-range number) is a decode error; `null` leaves the field untouched;
unknown keys are ignored; a later duplicate key overwrites. -/
def applyField (t : Transform) (kv : String × Json) : Option Transform :=
  match kv with
  | ("topic", Json.str s) => some { t with Topic := s }
  | ("topic", Json.null) => some t
  | ("topic", _) => none
  | ("partitionId", Json.num n) =>
      if int32Min ≤ n ∧ n ≤ int32Max then some { t with PartitionId := n } else none
  | ("partitionId", Json.null) => some t
  | ("partitionId", _) => none
  | ("offset", Json.num n) =>
      if int64Min ≤ n ∧ n ≤ int64Max then some { t with Offset := n } else none
  | ("offset", Json.null) => some t
  | ("offset", _) => none
  | (_, _) => some t

/-- Fold `applyField` over the fields of a JSON object. -/
def applyFields : Transform → List (String × Json) → Option Transform
  | t, [] => some t
  | t, kv :: rest =>
      match applyField t kv with
      | none => none
      | some t2 => applyFields t2 rest

/-- `json.Unmarshal(payload, &transformConsumer)` into the `Transform` struct:
a JSON object populates the tagged fields (absent fields keep their zero
values, with no required-field validation); JSON `null` succeeds and leaves
the zero value; any other top-level shape is a decode error. -/
def decodeTransform : Json → Option Transform
  | Json.null => some Transform.zero
  | Json.obj fields => applyFields Transform.zero fields
  | _ => none

/-- Go's `int32(n)` conversion of a non-negative length: wrap modulo 2^32 into
the signed 32-bit range. -/
def int32cast (n : Nat) : Int :=
  ((n : Int) + 2 ^ 31) % 2 ^ 32 - 2 ^ 31

/-- The path read (with watch) by `resetTopicListWatchAndAdd`:
`module.zookeeperPath + "/" + group + "/" + "0"`. -/
def topicListPath (zookeeperPath group : String) : String :=
  zookeeperPath ++ "/" ++ group ++ "/" ++ "0"

/-- The path listed (with watch) by `resetPartitionListWatchAndAdd`:
`module.zookeeperPath + "/" + group`. -/
def partitionListPath (zookeeperPath group : String) : String :=
  zookeeperPath ++ "/" ++ group

/-- The path read (with watch) by `resetOffsetWatchAndSend`:
`module.zookeeperPath + "/" + group + "/" + strconv.FormatInt(int64(partition), 10)`. -/
def offsetPath (zookeeperPath group : String) (partition : Int) : String :=
  zookeeperPath ++ "/" ++ group ++ "/" ++ toString partition

/-- An optional compiled pattern (`*regexp.Regexp`, possibly nil), abstracted
as its `MatchString` predicate; `none` is the nil pattern, matching nothing
by fiat of the nil checks in the source. -/
def matchesOpt : Option (String → Bool) → String → Bool
  | none, _ => false
  | some re, g => re g

/-- `acceptConsumerGroup`: reject when a whitelist is set and the name does
not match it; then reject when a blacklist is set and the name matches it;
otherwise accept. -/
def acceptConsumerGroup (wl bl : Option (String → Bool)) (group : String) : Bool :=
  if wl.isSome && !(matchesOpt wl group) then false
  else if bl.isSome && matchesOpt bl group then false
  else true

/-- Storage request types (from the referenced `protocol` package; only
`StorageSetConsumerOffset` is produced by this module, the second constructor
stands for every other request type of that package). -/
inductive StorageRequestType where
  | StorageSetConsumerOffset : StorageRequestType
  | otherStorageRequest : StorageRequestType
deriving DecidableEq, Repr

/-- The fields of `protocol.StorageRequest` populated by
`resetOffsetWatchAndSend`. -/
structure StorageRequest where
  RequestType : StorageRequestType
  Cluster : String
  Topic : String
  Partition : Int
  Group : String
  Timestamp : Int
  Offset : Int
deriving DecidableEq, Repr

/-- Which reset function registered a watch (tags the four tree levels). -/
inductive Lvl where
  | groupL : Lvl
  | topicL : Lvl
  | partitionL : Lvl
  | offsetL : Lvl
deriving DecidableEq, Repr

/-- A watch registration that reached its `go watchXxx(...)` spawn: the level
that spawned it, the group argument carried by the continuation (the empty
string at the group-list level), and the ZooKeeper path being watched. -/
structure WatchReg where
  lvl : Lvl
  group : String
  path : String
deriving DecidableEq, Repr

/-- Observable effects of one (synchronous) reset cascade: the watch
continuations spawned and the storage requests sent, in program order. -/
structure RunOut where
  watches : List WatchReg
  sends : List StorageRequest
deriving DecidableEq, Repr

/-- Result of `zk.GetW`: an error, or the node payload plus stat. -/
inductive GetWResult where
  | err : GetWResult
  | ok (payload : Json) (stat : ZkStat) : GetWResult

/-- Result of `zk.ChildrenW`: an error, or the list of child node names. -/
inductive ChildrenWResult where
  | err : ChildrenWResult
  | ok (children : List String) : ChildrenWResult

/-- The ZooKeeper ensemble as seen through the two read-with-watch calls the
module makes; fixed for the duration of one synchronous reset cascade. -/
structure ZkEnv where
  getW : String → GetWResult
  childrenW : String → ChildrenWResult

/-- The configuration fields of the module consulted by the reset functions. -/
structure Config where
  cluster : String
  zookeeperPath : String
  groupWhitelist : Option (String → Bool)
  groupBlacklist : Option (String → Bool)

/-- `acceptConsumerGroup` on a module's configured patterns. -/
def Config.accept (cfg : Config) (group : String) : Bool :=
  acceptConsumerGroup cfg.groupWhitelist cfg.groupBlacklist group

/-- The per-group state: topic name → partition count (`topicList.topics`,
each entry a `partitionCount.count`).  Association list with unique keys. -/
abbrev TopicMap := List (String × Int)

/-- The module's `groupList` map: group name → its topic map. -/
abbrev GroupMap := List (String × TopicMap)

/-- Keys of an association list. -/
def keysOf {α : Type} (xs : List (String × α)) : List String :=
  xs.map Prod.fst

/-- Go map lookup (`m[k]`, nil when absent) on the association-list model:
first entry under the key, scanning left to right. -/
def lookupA {α : Type} : List (String × α) → String → Option α
  | [], _ => none
  | (k, v) :: rest, g => if g = k then some v else lookupA rest g

/-- Replace the value stored at key `k` (Go's `m[k].field = v` on an entry
that is present); entries under other keys are untouched. -/
def updateA {α : Type} : List (String × α) → String → α → List (String × α)
  | [], _, _ => []
  | (k2, b) :: rest, k, v =>
      (if k2 = k then (k, v) else (k2, b)) :: updateA rest k v

/-- `resetOffsetWatchAndSend(group, topic, partition, resetOnly)`.
`GetW` failure: log and return (no watch, no send).  Decode failure: the
error log evaluates `err.Error()` on the nil `GetW` error and panics —
modelled as `none`.  Otherwise the offset-watch continuation is spawned and,
unless `resetOnly`, a `StorageSetConsumerOffset` request is sent carrying the
configured cluster, the topic/partition/group of this watcher, the node
stat's `Mtime` as timestamp, and the decoded `Offset`. -/
def runResetOffsetWatchAndSend (env : ZkEnv) (cfg : Config)
    (group topic : String) (partition : Int) (resetOnly : Bool) :
    Option RunOut :=
  match env.getW (offsetPath cfg.zookeeperPath group partition) with
  | GetWResult.err => some ⟨[], []⟩
  | GetWResult.ok payload stat =>
    match decodeTransform payload with
    | none => none
    | some t =>
      some ⟨[⟨Lvl.offsetL, group, offsetPath cfg.zookeeperPath group partition⟩],
        if resetOnly then []
        else [⟨StorageRequestType.StorageSetConsumerOffset, cfg.cluster, topic,
          partition, group, stat.Mtime, t.Offset⟩]⟩

/-- The `for i := count; i < int32(len(topicPartitions)); i++` loop of
`resetPartitionListWatchAndAdd`, as a fold over the list of new partition
indices; each iteration calls `resetOffsetWatchAndSend(group, topic, i, false)`
synchronously. -/
def runOffsets (env : ZkEnv) (cfg : Config) (group topic : String) :
    List Int → Option RunOut
  | [] => some ⟨[], []⟩
  | i :: rest =>
    match runResetOffsetWatchAndSend env cfg group topic i false with
    | none => none
    | some o1 =>
      match runOffsets env cfg group topic rest with
      | none => none
      | some o2 => some ⟨o1.watches ++ o2.watches, o1.sends ++ o2.sends⟩

/-- The list `[count, count + 1, ..., count + n - 1]` of partition indices. -/
def intsFrom (count : Int) (n : Nat) : List Int :=
  (List.range n).map fun k => count + (k : Int)

/-- `resetPartitionListWatchAndAdd(group, topic, resetOnly)`, with the stored
`partitionCount.count` threaded explicitly (second component of the result).
`ChildrenW` failure: return.  Otherwise spawn the partition-list watch
continuation; when not `resetOnly` and `int32(len(children)) ≥ count`, start
an offset watch for every index in `[count, int32(len(children)))` and store
the new count. -/
def runResetPartitionListWatchAndAdd (env : ZkEnv) (cfg : Config)
    (group topic : String) (count : Int) (resetOnly : Bool) :
    Option (RunOut × Int) :=
  match env.childrenW (partitionListPath cfg.zookeeperPath group) with
  | ChildrenWResult.err => some (⟨[], []⟩, count)
  | ChildrenWResult.ok children =>
    let selfW : List WatchReg :=
      [⟨Lvl.partitionL, group, partitionListPath cfg.zookeeperPath group⟩]
    if resetOnly then some (⟨selfW, []⟩, count)
    else
      let live : Int := int32cast children.length
      if count ≤ live then
        match runOffsets env cfg group topic (intsFrom count (live - count).toNat) with
        | none => none
        | some out => some (⟨selfW ++ out.watches, out.sends⟩, live)
      else some (⟨selfW, []⟩, count)

/-- `resetTopicListWatchAndAdd(group, resetOnly)`, with the group's topic map
threaded explicitly.  `GetW` failure on `zookeeperPath/group/0`: return.
Decode failure: log and return — before the `go watchTopicList` spawn, so no
continuation is armed.  Otherwise spawn the topic-list watch continuation;
when not `resetOnly`, scan the one-element topic list `[t.Topic]`: if the
topic is absent insert it with count 0 and synchronously descend into
`resetPartitionListWatchAndAdd(group, topic, false)`, writing the count back. -/
def runResetTopicListWatchAndAdd (env : ZkEnv) (cfg : Config) (group : String)
    (topics : TopicMap) (resetOnly : Bool) : Option (RunOut × TopicMap) :=
  match env.getW (topicListPath cfg.zookeeperPath group) with
  | GetWResult.err => some (⟨[], []⟩, topics)
  | GetWResult.ok payload _stat =>
    match decodeTransform payload with
    | none => some (⟨[], []⟩, topics)
    | some t =>
      let selfW : List WatchReg :=
        [⟨Lvl.topicL, group, topicListPath cfg.zookeeperPath group⟩]
      if resetOnly then some (⟨selfW, []⟩, topics)
      else
        match lookupA topics t.Topic with
        | some _ => some (⟨selfW, []⟩, topics)
        | none =>
          match runResetPartitionListWatchAndAdd env cfg group t.Topic 0 false with
          | none => none
          | some (out, newCount) =>
            some (⟨selfW ++ out.watches, out.sends⟩,
              updateA (topics ++ [(t.Topic, 0)]) t.Topic newCount)

/-- The `for _, group := range consumerGroups` loop of
`resetGroupListWatchAndAdd`: skip names failing `acceptConsumerGroup`; for an
accepted name not yet in the group map, insert an empty `topicList` and
synchronously call `resetTopicListWatchAndAdd(group, false)` (which mutates
that entry's topic map). -/
def runGroups (env : ZkEnv) (cfg : Config) :
    List String → GroupMap → Option (RunOut × GroupMap)
  | [], st => some (⟨[], []⟩, st)
  | g :: rest, st =>
    if !(cfg.accept g) then runGroups env cfg rest st
    else
      match lookupA st g with
      | some _ => runGroups env cfg rest st
      | none =>
        match runResetTopicListWatchAndAdd env cfg g [] false with
        | none => none
        | some (out, topics2) =>
          match runGroups env cfg rest (updateA (st ++ [(g, [])]) g topics2) with
          | none => none
          | some (out2, st4) =>
            some (⟨out.watches ++ out2.watches, out.sends ++ out2.sends⟩, st4)

/-- `resetGroupListWatchAndAdd(resetOnly)`: list `zookeeperPath` with a watch
(failure: return), spawn the group-list watch continuation, and when not
`resetOnly` scan the children with `runGroups`. -/
def runResetGroupListWatchAndAdd (env : ZkEnv) (cfg : Config) (st : GroupMap)
    (resetOnly : Bool) : Option (RunOut × GroupMap) :=
  match env.childrenW cfg.zookeeperPath with
  | ChildrenWResult.err => some (⟨[], []⟩, st)
  | ChildrenWResult.ok consumerGroups =>
    let selfW : List WatchReg := [⟨Lvl.groupL, "", cfg.zookeeperPath⟩]
    if resetOnly then some (⟨selfW, []⟩, st)
    else
      match runGroups env cfg consumerGroups st with
      | none => none
      | some (out, st2) => some (⟨selfW ++ out.watches, out.sends⟩, st2)

/-- The `zk.EventType` values relevant to the module. -/
inductive ZkEventType where
  | nodeCreated : ZkEventType
  | nodeDeleted : ZkEventType
  | nodeDataChanged : ZkEventType
  | nodeChildrenChanged : ZkEventType
  | session : ZkEventType
  | notWatching : ZkEventType
deriving DecidableEq, Repr

/-- What a `watchXxx` goroutine does after receiving on its event channel:
terminate the chain, or spawn the level's reset function with the given
`resetOnly` argument. -/
inductive WatchStep where
  | terminated : WatchStep
  | respawn (resetOnly : Bool) : WatchStep
deriving DecidableEq, Repr

/-- `watchGroupList`: on a closed channel or `EventNotWatching`, return;
otherwise spawn `resetGroupListWatchAndAdd(event.Type != EventNodeChildrenChanged)`. -/
def watchGroupList (isOpen : Bool) (etype : ZkEventType) : WatchStep :=
  if !isOpen || (etype == ZkEventType.notWatching) then WatchStep.terminated
  else WatchStep.respawn (etype != ZkEventType.nodeChildrenChanged)

/-- `watchTopicList(group)`: same decision, spawning
`resetTopicListWatchAndAdd(group, event.Type != EventNodeChildrenChanged)`. -/
def watchTopicList (_group : String) (isOpen : Bool) (etype : ZkEventType) :
    WatchStep :=
  if !isOpen || (etype == ZkEventType.notWatching) then WatchStep.terminated
  else WatchStep.respawn (etype != ZkEventType.nodeChildrenChanged)

/-- `watchPartitionList(group, topic)`: same decision, spawning
`resetPartitionListWatchAndAdd(group, topic, event.Type != EventNodeChildrenChanged)`. -/
def watchPartitionList (_group _topic : String) (isOpen : Bool)
    (etype : ZkEventType) : WatchStep :=
  if !isOpen || (etype == ZkEventType.notWatching) then WatchStep.terminated
  else WatchStep.respawn (etype != ZkEventType.nodeChildrenChanged)

/-- `watchOffset(group, topic, partition)`: same decision, but the leaf level
spawns `resetOffsetWatchAndSend(..., event.Type != EventNodeDataChanged)`. -/
def watchOffset (_group _topic : String) (_partition : Int) (isOpen : Bool)
    (etype : ZkEventType) : WatchStep :=
  if !isOpen || (etype == ZkEventType.notWatching) then WatchStep.terminated
  else WatchStep.respawn (etype != ZkEventType.nodeDataChanged)

/-- The `zk.State` values distinguished by `connectionStateWatcher`:
`StateExpired`, `StateConnected`, and everything else. -/
inductive ZkSessionState where
  | expired : ZkSessionState
  | connected : ZkSessionState
  | otherState : ZkSessionState
deriving DecidableEq, Repr

/-- One event from the connection event channel: whether its `Type` is
`zk.EventSession`, and its `State`. -/
structure ZkSessionEvent where
  isSessionEvent : Bool
  state : ZkSessionState
deriving DecidableEq, Repr

/-- The module state read and written by `connectionStateWatcher`: the
`areWatchesSet` flag, the `groupList` map, and the trace of
`resetGroupListWatchAndAdd` invocations it has spawned (each recorded by its
`resetOnly` argument). -/
structure WatcherState where
  areWatchesSet : Bool
  groupList : GroupMap
  scans : List Bool

/-- One iteration of `connectionStateWatcher`'s event loop.  Non-session
events are ignored.  `StateExpired` clears `areWatchesSet`.  `StateConnected`
with `areWatchesSet` unset swaps in an empty `groupList` and spawns
`resetGroupListWatchAndAdd(false)`; note the loop never sets `areWatchesSet`
back to true.  All other states are ignored. -/
def connectionStateStep (s : WatcherState) (e : ZkSessionEvent) : WatcherState :=
  if e.isSessionEvent then
    match e.state with
    | ZkSessionState.expired => { s with areWatchesSet := false }
    | ZkSessionState.connected =>
      if !s.areWatchesSet then
        { s with groupList := [], scans := s.scans ++ [false] }
      else s
    | ZkSessionState.otherState => s
  else s

/-- `connectionStateWatcher` over a finite prefix of the event channel. -/
def connectionStateWatcher (s : WatcherState) (events : List ZkSessionEvent) :
    WatcherState :=
  events.foldl connectionStateStep s

/-- The `count` update performed by one non-reset-only partition-list rescan
observing `n` live children (the `if int32(len(topicPartitions)) >= count`
block): adopt `int32(n)` when it is not below the stored count. -/
def partitionRescanCount (count : Int) (n : Nat) : Int :=
  if count ≤ int32cast n then int32cast n else count

/-- Iterated `partitionRescanCount` over a sequence of observed live child
counts. -/
def partitionRescanCounts (count : Int) (ns : List Nat) : Int :=
  ns.foldl partitionRescanCount count

/-- Boolean check that a `GetW` result on an offset path either failed or
returned a payload `json.Unmarshal` accepts — i.e. this read does not hit the
decode-failure branch (whose error log panics on the nil `GetW` error). -/
def offsetReadOk (env : ZkEnv) (cfg : Config) (group : String) (i : Int) : Bool :=
  match env.getW (offsetPath cfg.zookeeperPath group i) with
  | GetWResult.err => true
  | GetWResult.ok payload _ => (decodeTransform payload).isSome

/-- A concrete configuration: cluster "c", consumers path "/consumers", no
filter patterns. -/
def cfgW : Config := ⟨"c", "/consumers", none, none⟩

/-- A well-formed node payload: `{"topic": "t", "offset": 42}`. -/
def payloadW : Json := Json.obj [("topic", Json.str "t"), ("offset", Json.num 42)]

/-- A concrete node stat with modified-time 100. -/
def statW : ZkStat := ⟨100⟩

/-- A concrete ensemble: one group "g" under "/consumers", whose node
"/consumers/g" has the single partition child "0" and whose payload node
"/consumers/g/0" holds `payloadW`. -/
def envW : ZkEnv :=
  ⟨fun p => if p = "/consumers/g/0" then GetWResult.ok payloadW statW else GetWResult.err,
   fun p =>
     if p = "/consumers" then ChildrenWResult.ok ["g"]
     else if p = "/consumers/g" then ChildrenWResult.ok ["0"]
     else ChildrenWResult.err⟩

/-- An ensemble whose every node reads back `payloadW` and whose every
children listing is `["0"]`. -/
def envP1 : ZkEnv :=
  ⟨fun _ => GetWResult.ok payloadW statW, fun _ => ChildrenWResult.ok ["0"]⟩

/-- Like `envP1` but every children listing is empty (a shrunk partition
list). -/
def envP0 : ZkEnv :=
  ⟨fun _ => GetWResult.ok payloadW statW, fun _ => ChildrenWResult.ok []⟩

/-- An ensemble whose every node reads back the payload `"x"` — present but
not decodable as a `Transform` record. -/
def envBad : ZkEnv :=
  ⟨fun _ => GetWResult.ok (Json.str "x") ⟨0⟩, fun _ => ChildrenWResult.err⟩

/-- An ensemble whose every node reads back the payload `{}` (valid JSON,
every record field absent) with modified-time 7, and whose children
listings fail. -/
def envEmptyObj : ZkEnv :=
  ⟨fun _ => GetWResult.ok (Json.obj []) ⟨7⟩, fun _ => ChildrenWResult.err⟩

/-- A configuration whose blacklist matches every name (every group is
filtered out). -/
def cfgB : Config := ⟨"c", "/consumers", none, some fun _ => true⟩

/-- A session event: `zk.EventSession` with `zk.StateExpired`. -/
def sessExpired : ZkSessionEvent := ⟨true, ZkSessionState.expired⟩

/-- A session event: `zk.EventSession` with `zk.StateConnected`. -/
def sessConnected : ZkSessionEvent := ⟨true, ZkSessionState.connected⟩

/-- A watcher state as left by a completed `Start`: watches set, one tracked
group, no rebuild scans recorded yet. -/
def wsInit : WatcherState := ⟨true, [("g", [("t", 1)])], []⟩

section AssocLemmas

variable {α : Type}

theorem keysOf_append (xs ys : List (String × α)) :
    keysOf (xs ++ ys) = keysOf xs ++ keysOf ys := by
  simp [keysOf]

theorem keysOf_updateA (xs : List (String × α)) (k : String) (v : α) :
    keysOf (updateA xs k v) = keysOf xs := by
  induction xs with
  | nil => rfl
  | cons p rest ih =>
    by_cases h : p.1 = k
    · simp [updateA, keysOf, h] at ih ⊢
      exact ih
    · simp [updateA, keysOf, h] at ih ⊢
      exact ih

theorem lookupA_append_some (xs ys : List (String × α)) (g : String) (v : α)
    (h : lookupA xs g = some v) : lookupA (xs ++ ys) g = some v := by
  induction xs with
  | nil => simp [lookupA] at h
  | cons p rest ih =>
    cases p with
    | mk k b =>
      by_cases hk : g = k
      · simp [lookupA, hk] at h ⊢
        exact h
      · simp [lookupA, hk] at h ⊢
        exact ih h

theorem lookupA_append_none (xs ys : List (String × α)) (g : String)
    (h : lookupA xs g = none) : lookupA (xs ++ ys) g = lookupA ys g := by
  induction xs with
  | nil => simp [lookupA]
  | cons p rest ih =>
    cases p with
    | mk k b =>
      by_cases hk : g = k
      · simp [lookupA, hk] at h
      · simp [lookupA, hk] at h ⊢
        exact ih h

theorem lookupA_updateA_ne (xs : List (String × α)) (g k : String) (v : α)
    (h : g ≠ k) : lookupA (updateA xs k v) g = lookupA xs g := by
  induction xs with
  | nil => rfl
  | cons p rest ih =>
    cases p with
    | mk k2 b =>
      by_cases h2 : k2 = k
      · subst h2
        simp only [updateA, List.map_cons, if_pos rfl]
        simp only [lookupA, if_neg h]
        simpa [updateA] using ih
      · simp only [updateA, List.map_cons, if_neg h2]
        by_cases h3 : g = k2
        · simp [lookupA, h3]
        · simp only [lookupA, if_neg h3]
          simpa [updateA] using ih

theorem lookupA_updateA_self (xs : List (String × α)) (k : String) (v w : α)
    (h : lookupA xs k = some w) : lookupA (updateA xs k v) k = some v := by
  induction xs with
  | nil => simp [lookupA] at h
  | cons p rest ih =>
    cases p with
    | mk k2 b =>
      by_cases h2 : k2 = k
      · subst h2
        show lookupA ((if k2 = k2 then (k2, v) else (k2, b)) :: updateA rest k2 v) k2 =
          some v
        rw [if_pos rfl]
        simp [lookupA]
      · have hne : k ≠ k2 := fun he => h2 he.symm
        simp only [lookupA, if_neg hne] at h
        show lookupA ((if k2 = k then (k, v) else (k2, b)) :: updateA rest k v) k = some v
        rw [if_neg h2]
        simp only [lookupA, if_neg hne]
        exact ih h

theorem lookupA_eq_none_iff (xs : List (String × α)) (g : String) :
    lookupA xs g = none ↔ g ∉ keysOf xs := by
  induction xs with
  | nil => simp [lookupA, keysOf]
  | cons p rest ih =>
    cases p with
    | mk k b =>
      by_cases hk : g = k
      · simp [lookupA, keysOf, hk]
      · simp [lookupA, keysOf, hk, ih]

theorem nodup_keys_insert (xs : List (String × α)) (g : String) (v : α)
    (hn : (keysOf xs).Nodup) (h : lookupA xs g = none) :
    (keysOf (xs ++ [(g, v)])).Nodup := by
  rw [keysOf_append]
  rw [List.nodup_append_comm]
  simp only [keysOf, List.map]
  exact List.nodup_cons.mpr ⟨(lookupA_eq_none_iff xs g).mp h, hn⟩

end AssocLemmas

/-- Claim C6: for every group name, the filter returns false iff (a whitelist
pattern is configured and the name does not match it) or (a blacklist pattern
is configured and the name matches it); with neither pattern configured it
returns true for every name (the iff also yields that a blacklist match
rejects even when the whitelist accepts). -/
theorem accept_false_iff (wl bl : Option (String → Bool)) (g : String) :
    (acceptConsumerGroup wl bl g = false ↔
      (∃ re, wl = some re ∧ re g = false) ∨ (∃ re, bl = some re ∧ re g = true)) ∧
    acceptConsumerGroup none none g = true := by
  constructor
  · cases wl with
    | none =>
      cases bl with
      | none => simp [acceptConsumerGroup, matchesOpt]
      | some rb => cases hrb : rb g <;> simp [acceptConsumerGroup, matchesOpt, hrb]
    | some ra =>
      cases bl with
      | none => cases hra : ra g <;> simp [acceptConsumerGroup, matchesOpt, hra]
      | some rb =>
        cases hra : ra g <;> cases hrb : rb g <;>
          simp [acceptConsumerGroup, matchesOpt, hra, hrb]
  · simp [acceptConsumerGroup, matchesOpt]

/-- Claim C9: a successful, non-reset-only offset-leaf pass forwards exactly
one storage request of type `StorageSetConsumerOffset` carrying the configured
cluster, the watched node's topic, partition and group, the offset decoded
from the payload, and the node stat's `Mtime` (metadata, not payload) as the
timestamp. -/
theorem offset_send_fields (env : ZkEnv) (cfg : Config) (g t : String) (p : Int)
    (payload : Json) (stat : ZkStat) (tr : Transform)
    (h1 : env.getW (offsetPath cfg.zookeeperPath g p) = GetWResult.ok payload stat)
    (h2 : decodeTransform payload = some tr) :
    runResetOffsetWatchAndSend env cfg g t p false =
      some ⟨[⟨Lvl.offsetL, g, offsetPath cfg.zookeeperPath g p⟩],
        [⟨StorageRequestType.StorageSetConsumerOffset, cfg.cluster, t, p, g,
          stat.Mtime, tr.Offset⟩]⟩ := by
  simp [runResetOffsetWatchAndSend, h1, h2]

/-- Witness for `offset_send_fields` at a concrete ensemble. -/
theorem offset_send_fields_witness :
    runResetOffsetWatchAndSend envP1 cfgW "g" "t" 5 false =
      some ⟨[⟨Lvl.offsetL, "g", "/consumers/g/5"⟩],
        [⟨StorageRequestType.StorageSetConsumerOffset, "c", "t", 5, "g", 100, 42⟩]⟩ :=
  offset_send_fields envP1 cfgW "g" "t" 5 payloadW statW ⟨"t", 0, 42⟩ rfl rfl

/-- Claim C8: whenever a watch-fire spawns a continuation, the group-list,
topic-list and partition-list levels pass `resetOnly` = true iff the event is
not children-changed, and the offset leaf iff the event is not data-changed
(any non-closing, non-`EventNotWatching` event does spawn a continuation);
and a `resetOnly` = true pass still performs the re-registration read (the
level's own watch is re-armed) but skips the scan/forward step, leaving the
tracked state untouched and sending nothing. -/
theorem watch_resetOnly_classification (gname tname : String) (p c : Int)
    (etype : ZkEventType) (ro : Bool) (env : ZkEnv) (cfg : Config)
    (st : GroupMap) (topics : TopicMap) :
    (watchGroupList true etype = WatchStep.respawn ro →
      (ro = true ↔ etype ≠ ZkEventType.nodeChildrenChanged)) ∧
    (watchTopicList gname true etype = WatchStep.respawn ro →
      (ro = true ↔ etype ≠ ZkEventType.nodeChildrenChanged)) ∧
    (watchPartitionList gname tname true etype = WatchStep.respawn ro →
      (ro = true ↔ etype ≠ ZkEventType.nodeChildrenChanged)) ∧
    (watchOffset gname tname p true etype = WatchStep.respawn ro →
      (ro = true ↔ etype ≠ ZkEventType.nodeDataChanged)) ∧
    (etype ≠ ZkEventType.notWatching →
      watchGroupList true etype ≠ WatchStep.terminated ∧
      watchOffset gname tname p true etype ≠ WatchStep.terminated) ∧
    (∀ children, env.childrenW cfg.zookeeperPath = ChildrenWResult.ok children →
      runResetGroupListWatchAndAdd env cfg st true =
        some (⟨[⟨Lvl.groupL, "", cfg.zookeeperPath⟩], []⟩, st)) ∧
    (∀ children,
      env.childrenW (partitionListPath cfg.zookeeperPath gname) =
        ChildrenWResult.ok children →
      runResetPartitionListWatchAndAdd env cfg gname tname c true =
        some (⟨[⟨Lvl.partitionL, gname, partitionListPath cfg.zookeeperPath gname⟩],
          []⟩, c)) ∧
    (∀ payload stat tr,
      env.getW (topicListPath cfg.zookeeperPath gname) = GetWResult.ok payload stat →
      decodeTransform payload = some tr →
      runResetTopicListWatchAndAdd env cfg gname topics true =
        some (⟨[⟨Lvl.topicL, gname, topicListPath cfg.zookeeperPath gname⟩], []⟩,
          topics)) ∧
    (∀ payload stat tr,
      env.getW (offsetPath cfg.zookeeperPath gname p) = GetWResult.ok payload stat →
      decodeTransform payload = some tr →
      runResetOffsetWatchAndSend env cfg gname tname p true =
        some ⟨[⟨Lvl.offsetL, gname, offsetPath cfg.zookeeperPath gname p⟩], []⟩) := by
  refine ⟨?_, ?_, ?_, ?_, ?_, ?_, ?_, ?_, ?_⟩
  · intro h
    cases etype <;> simp [watchGroupList] at h ⊢ <;> simp [← h]
  · intro h
    cases etype <;> simp [watchTopicList] at h ⊢ <;> simp [← h]
  · intro h
    cases etype <;> simp [watchPartitionList] at h ⊢ <;> simp [← h]
  · intro h
    cases etype <;> simp [watchOffset] at h ⊢ <;> simp [← h]
  · intro h
    cases etype <;> simp [watchGroupList, watchOffset] at h ⊢
  · intro children h
    simp [runResetGroupListWatchAndAdd, h]
  · intro children h
    simp [runResetPartitionListWatchAndAdd, h]
  · intro payload stat tr h1 h2
    simp [runResetTopicListWatchAndAdd, h1, h2]
  · intro payload stat tr h1 h2
    simp [runResetOffsetWatchAndSend, h1, h2]

/-- Witness for `watch_resetOnly_classification` at a node-created event and
a concrete ensemble. -/
theorem watch_resetOnly_classification_witness :
    (true = true ↔ ZkEventType.nodeCreated ≠ ZkEventType.nodeChildrenChanged) ∧
    (true = true ↔ ZkEventType.nodeCreated ≠ ZkEventType.nodeDataChanged) ∧
    runResetGroupListWatchAndAdd envP1 cfgW [("g", [("t", 1)])] true =
      some (⟨[⟨Lvl.groupL, "", "/consumers"⟩], []⟩, [("g", [("t", 1)])]) ∧
    runResetPartitionListWatchAndAdd envP1 cfgW "g" "t" 1 true =
      some (⟨[⟨Lvl.partitionL, "g", "/consumers/g"⟩], []⟩, 1) ∧
    runResetTopicListWatchAndAdd envP1 cfgW "g" [("t", 1)] true =
      some (⟨[⟨Lvl.topicL, "g", "/consumers/g/0"⟩], []⟩, [("t", 1)]) ∧
    runResetOffsetWatchAndSend envP1 cfgW "g" "t" 3 true =
      some ⟨[⟨Lvl.offsetL, "g", "/consumers/g/3"⟩], []⟩ := by
  have h := watch_resetOnly_classification "g" "t" 3 1 ZkEventType.nodeCreated true
    envP1 cfgW [("g", [("t", 1)])] [("t", 1)]
  exact ⟨h.1 rfl, h.2.2.2.1 rfl,
    h.2.2.2.2.2.1 ["0"] rfl,
    h.2.2.2.2.2.2.1 ["0"] rfl,
    h.2.2.2.2.2.2.2.1 payloadW statW ⟨"t", 0, 42⟩ rfl rfl,
    h.2.2.2.2.2.2.2.2 payloadW statW ⟨"t", 0, 42⟩ rfl rfl⟩

/-- Counterexample to claim C1: with a node payload `"x"` that reads back
successfully but fails to decode, the topic-list pass spawns no continuation
watch at all (empty watch list), and the offset-leaf pass panics (the decode
failure branch dereferences the nil `GetW` error while logging) — in neither
case is the watch chain re-armed. -/
theorem decode_failure_abandons_watch_cex :
    decodeTransform (Json.str "x") = none ∧
    runResetTopicListWatchAndAdd envBad cfgW "g" [] false = some (⟨[], []⟩, []) ∧
    runResetOffsetWatchAndSend envBad cfgW "g" "t" 1 false = none :=
  ⟨rfl, rfl, rfl⟩

/-- Claim C1 as amended: when the read-with-watch succeeds but the payload
fails to decode, the continuation task is NOT spawned — the topic-list level
returns before its `go watchTopicList` spawn (no watch, no scan, state
untouched), and the offset leaf panics before its `go watchOffset` spawn (the
error log calls `Error()` on the nil read error); the scan/forward step is
skipped as well. -/
theorem decode_failure_abandons_watch (env : ZkEnv) (cfg : Config)
    (group tname : String) (topics : TopicMap) (p : Int) (ro : Bool)
    (payload : Json) (stat : ZkStat)
    (hdec : decodeTransform payload = none) :
    (env.getW (topicListPath cfg.zookeeperPath group) = GetWResult.ok payload stat →
      runResetTopicListWatchAndAdd env cfg group topics ro = some (⟨[], []⟩, topics)) ∧
    (env.getW (offsetPath cfg.zookeeperPath group p) = GetWResult.ok payload stat →
      runResetOffsetWatchAndSend env cfg group tname p ro = none) := by
  constructor
  · intro h
    simp [runResetTopicListWatchAndAdd, h, hdec]
  · intro h
    simp [runResetOffsetWatchAndSend, h, hdec]

/-- Witness for `decode_failure_abandons_watch` at the undecodable ensemble. -/
theorem decode_failure_abandons_watch_witness :
    runResetTopicListWatchAndAdd envBad cfgW "gg" [("t", 1)] true =
      some (⟨[], []⟩, [("t", 1)]) ∧
    runResetOffsetWatchAndSend envBad cfgW "gg" "t" 2 true = none := by
  have h := decode_failure_abandons_watch envBad cfgW "gg" "t" [("t", 1)] 2 true
    (Json.str "x") ⟨0⟩ rfl
  exact ⟨h.1 rfl, h.2 rfl⟩

/-- Counterexample to claim C3: one non-reset-only topic-list pass on group
"g" (ensemble `envW`, one partition child) leaves BOTH a topic-list-level
continuation and an offset-leaf continuation watching the same path
"/consumers/g/0" — the topic-list read path and the partition-0 offset path
coincide, so two outstanding watches share one node path. -/
theorem duplicate_watch_same_path_cex :
    runResetTopicListWatchAndAdd envW cfgW "g" [] false =
      some (⟨[⟨Lvl.topicL, "g", "/consumers/g/0"⟩,
              ⟨Lvl.partitionL, "g", "/consumers/g"⟩,
              ⟨Lvl.offsetL, "g", "/consumers/g/0"⟩],
        [⟨StorageRequestType.StorageSetConsumerOffset, "c", "t", 0, "g", 100, 42⟩]⟩,
        [("t", 1)]) ∧
    topicListPath "/consumers" "g" = offsetPath "/consumers" "g" 0 :=
  ⟨rfl, rfl⟩

/-- Claim C3 as amended: the "one watch per path" invariant fails exactly at
partition index 0 — for every configuration root and group, the topic-list
read path equals the offset path of partition 0, and in a reachable state (a
group with at least one discovered partition) a topic-list continuation and
an offset continuation are simultaneously outstanding on that shared path. -/
theorem topicList_offset_share_path (zkPath g : String)
    (out : RunOut) (st : TopicMap)
    (hrun : runResetTopicListWatchAndAdd envW cfgW "g" [] false = some (out, st)) :
    topicListPath zkPath g = offsetPath zkPath g 0 ∧
    (⟨Lvl.topicL, "g", topicListPath "/consumers" "g"⟩ : WatchReg) ∈ out.watches ∧
    (⟨Lvl.offsetL, "g", offsetPath "/consumers" "g" 0⟩ : WatchReg) ∈ out.watches := by
  have hval : runResetTopicListWatchAndAdd envW cfgW "g" [] false =
      some (⟨[⟨Lvl.topicL, "g", "/consumers/g/0"⟩,
              ⟨Lvl.partitionL, "g", "/consumers/g"⟩,
              ⟨Lvl.offsetL, "g", "/consumers/g/0"⟩],
        [⟨StorageRequestType.StorageSetConsumerOffset, "c", "t", 0, "g", 100, 42⟩]⟩,
        [("t", 1)]) := rfl
  rw [hval] at hrun
  have hout : out = ⟨[⟨Lvl.topicL, "g", "/consumers/g/0"⟩,
      ⟨Lvl.partitionL, "g", "/consumers/g"⟩,
      ⟨Lvl.offsetL, "g", "/consumers/g/0"⟩],
    [⟨StorageRequestType.StorageSetConsumerOffset, "c", "t", 0, "g", 100, 42⟩]⟩ :=
    ((Prod.mk.injEq _ _ _ _).mp (Option.some.inj hrun.symm)).1
  constructor
  · show zkPath ++ "/" ++ g ++ "/" ++ "0" = zkPath ++ "/" ++ g ++ "/" ++ toString (0 : Int)
    rfl
  · rw [hout]
    exact ⟨List.Mem.head _, List.Mem.tail _ (List.Mem.tail _ (List.Mem.head _))⟩

/-- Witness for `topicList_offset_share_path` at its concrete run. -/
theorem topicList_offset_share_path_witness :
    topicListPath "/zk" "grp" = offsetPath "/zk" "grp" 0 ∧
    (⟨Lvl.topicL, "g", topicListPath "/consumers" "g"⟩ : WatchReg) ∈
      [(⟨Lvl.topicL, "g", "/consumers/g/0"⟩ : WatchReg),
       ⟨Lvl.partitionL, "g", "/consumers/g"⟩,
       ⟨Lvl.offsetL, "g", "/consumers/g/0"⟩] ∧
    (⟨Lvl.offsetL, "g", offsetPath "/consumers" "g" 0⟩ : WatchReg) ∈
      [(⟨Lvl.topicL, "g", "/consumers/g/0"⟩ : WatchReg),
       ⟨Lvl.partitionL, "g", "/consumers/g"⟩,
       ⟨Lvl.offsetL, "g", "/consumers/g/0"⟩] :=
  topicList_offset_share_path "/zk" "grp"
    ⟨[⟨Lvl.topicL, "g", "/consumers/g/0"⟩,
      ⟨Lvl.partitionL, "g", "/consumers/g"⟩,
      ⟨Lvl.offsetL, "g", "/consumers/g/0"⟩],
     [⟨StorageRequestType.StorageSetConsumerOffset, "c", "t", 0, "g", 100, 42⟩]⟩
    [("t", 1)] rfl

/-- After a `StateConnected` rebuild the `areWatchesSet` flag is still false,
so the scans recorded over a run of connected-session events keep growing. -/
theorem watcher_replicate_connected_scans (n : Nat) : ∀ gl sc,
    (connectionStateWatcher ⟨false, gl, sc⟩ (List.replicate n sessConnected)).scans =
      sc ++ List.replicate n false := by
  induction n with
  | zero => intro gl sc; simp [connectionStateWatcher]
  | succ m ih =>
    intro gl sc
    rw [List.replicate_succ]
    show (connectionStateWatcher
      (connectionStateStep ⟨false, gl, sc⟩ sessConnected)
      (List.replicate m sessConnected)).scans = sc ++ List.replicate (m + 1) false
    have hstep : connectionStateStep ⟨false, gl, sc⟩ sessConnected =
        ⟨false, [], sc ++ [false]⟩ := rfl
    rw [hstep, ih [] (sc ++ [false])]
    simp [List.replicate_succ]

/-- Counterexample to claim C2: from a started module (flag set), the event
sequence expired, connected, connected records TWO root-scan triggers — the
second connected event, with no intervening expiry, re-triggers the full
rebuild, because the handler never sets `areWatchesSet` back to true. -/
theorem session_rebuild_retrigger_cex :
    (connectionStateWatcher wsInit [sessExpired, sessConnected]).scans = [false] ∧
    (connectionStateWatcher wsInit
      [sessExpired, sessConnected, sessConnected]).scans = [false, false] :=
  ⟨rfl, rfl⟩

/-- Claim C2 as amended: on a session-expired event the handler only clears
the watches-valid flag; on a session-connected event with the flag clear it
swaps in an empty group tree and triggers the root group-list scan with
`resetOnly` = false; a connected event with the flag set, any other session
state, and any non-session event are ignored.  But the handler never sets the
flag back to true, so after one expiry EVERY subsequent connected event
triggers a further full rebuild — not exactly once per expired-then-connected
cycle. -/
theorem session_rebuild_behavior (s : WatcherState) (e : ZkSessionEvent) (n : Nat) :
    (e.isSessionEvent = false → connectionStateStep s e = s) ∧
    (connectionStateStep s ⟨true, ZkSessionState.expired⟩ =
      { s with areWatchesSet := false }) ∧
    (s.areWatchesSet = false →
      connectionStateStep s ⟨true, ZkSessionState.connected⟩ =
        { s with groupList := [], scans := s.scans ++ [false] }) ∧
    (s.areWatchesSet = true →
      connectionStateStep s ⟨true, ZkSessionState.connected⟩ = s) ∧
    (connectionStateStep s ⟨true, ZkSessionState.otherState⟩ = s) ∧
    ((connectionStateStep s e).areWatchesSet = true → s.areWatchesSet = true) ∧
    (s.areWatchesSet = true →
      (connectionStateWatcher s
        (sessExpired :: List.replicate n sessConnected)).scans =
        s.scans ++ List.replicate n false) := by
  refine ⟨?_, ?_, ?_, ?_, ?_, ?_, ?_⟩
  · intro h
    simp [connectionStateStep, h]
  · rfl
  · intro h
    simp [connectionStateStep, h]
  · intro h
    simp [connectionStateStep, h]
  · rfl
  · intro h
    by_cases hs : e.isSessionEvent
    · cases e with
      | mk ise stv =>
        simp only at hs
        subst hs
        cases stv with
        | expired => simp [connectionStateStep] at h
        | connected =>
          by_cases hw : s.areWatchesSet
          · exact hw
          · simp [connectionStateStep, hw] at h
        | otherState => simpa [connectionStateStep] using h
    · simp only [Bool.not_eq_true] at hs
      simpa [connectionStateStep, hs] using h
  · intro h
    show (connectionStateWatcher (connectionStateStep s sessExpired)
      (List.replicate n sessConnected)).scans = s.scans ++ List.replicate n false
    have hstep : connectionStateStep s sessExpired =
        ⟨false, s.groupList, s.scans⟩ := rfl
    rw [hstep, watcher_replicate_connected_scans n s.groupList s.scans]

/-- Witness for `session_rebuild_behavior` at a started module and two
connected events after one expiry. -/
theorem session_rebuild_behavior_witness :
    connectionStateStep wsInit ⟨false, ZkSessionState.connected⟩ = wsInit ∧
    connectionStateStep wsInit ⟨true, ZkSessionState.connected⟩ = wsInit ∧
    (connectionStateWatcher wsInit
      (sessExpired :: List.replicate 2 sessConnected)).scans =
      wsInit.scans ++ List.replicate 2 false := by
  have h := session_rebuild_behavior wsInit ⟨false, ZkSessionState.connected⟩ 2
  exact ⟨h.1 rfl, h.2.2.2.1 rfl, h.2.2.2.2.2.2 rfl⟩

/-- One rescan's count update is the max of the stored count and the cast
live count. -/
theorem partitionRescanCount_eq_max (c : Int) (n : Nat) :
    partitionRescanCount c n = max c (int32cast n) := by
  unfold partitionRescanCount
  by_cases h : c ≤ int32cast n
  · simp [h, max_eq_right h]
  · simp [h, max_eq_left (le_of_not_le h)]

/-- `int32(n)` is `n` itself whenever the length fits in 31 bits. -/
theorem int32cast_eq (n : Nat) (h : (n : Int) < 2 ^ 31) : int32cast n = n := by
  unfold int32cast
  rw [Int.emod_eq_of_lt (by positivity) (by omega)]
  omega

/-- When every offset read on the scanned indices either fails or decodes,
the offset loop completes without panicking. -/
theorem runOffsets_isSome_of_ok (env : ZkEnv) (cfg : Config) (g t : String) :
    ∀ is : List Int, (∀ i ∈ is, offsetReadOk env cfg g i = true) →
    ∃ o, runOffsets env cfg g t is = some o := by
  intro is
  induction is with
  | nil => intro _; exact ⟨⟨[], []⟩, rfl⟩
  | cons i rest ih =>
    intro h
    have hi := h i (List.mem_cons_self i rest)
    have hrest := ih fun j hj => h j (List.mem_cons_of_mem i hj)
    obtain ⟨o2, ho2⟩ := hrest
    unfold offsetReadOk at hi
    cases hg : env.getW (offsetPath cfg.zookeeperPath g i) with
    | err =>
      refine ⟨⟨o2.watches, o2.sends⟩, ?_⟩
      simp [runOffsets, runResetOffsetWatchAndSend, hg, ho2]
    | ok payload stat =>
      rw [hg] at hi
      simp only [Option.isSome_iff_exists] at hi
      obtain ⟨tr, htr⟩ := hi
      refine ⟨⟨⟨Lvl.offsetL, g, offsetPath cfg.zookeeperPath g i⟩ :: o2.watches,
        ⟨StorageRequestType.StorageSetConsumerOffset, cfg.cluster, t, i, g,
          stat.Mtime, tr.Offset⟩ :: o2.sends⟩, ?_⟩
      simp [runOffsets, runResetOffsetWatchAndSend, hg, htr, ho2]

/-- The offset loop over explicit payload/stat/decode functions: one watch
and one send per index, in order. -/
theorem runOffsets_spec (env : ZkEnv) (cfg : Config) (g t : String)
    (pay : Int → Json) (stt : Int → ZkStat) (tr : Int → Transform)
    (hp : ∀ i : Int, env.getW (offsetPath cfg.zookeeperPath g i) =
      GetWResult.ok (pay i) (stt i))
    (hd : ∀ i : Int, decodeTransform (pay i) = some (tr i)) :
    ∀ is : List Int, runOffsets env cfg g t is =
      some ⟨is.map fun i => ⟨Lvl.offsetL, g, offsetPath cfg.zookeeperPath g i⟩,
        is.map fun i => ⟨StorageRequestType.StorageSetConsumerOffset, cfg.cluster,
          t, i, g, (stt i).Mtime, (tr i).Offset⟩⟩ := by
  intro is
  induction is with
  | nil => rfl
  | cons i rest ih =>
    simp only [runOffsets, runResetOffsetWatchAndSend, hp i, hd i, ih, List.map_cons]
    rfl

/-- The iterated count update is a running maximum. -/
theorem partitionRescanCounts_eq_foldl_max : ∀ (ns : List Nat) (c : Int),
    partitionRescanCounts c ns = ns.foldl (fun m n => max m (int32cast n)) c := by
  intro ns
  induction ns with
  | nil => intro c; rfl
  | cons n rest ih =>
    intro c
    have ih2 : rest.foldl partitionRescanCount (partitionRescanCount c n) =
        rest.foldl (fun m k => max m (int32cast k)) (partitionRescanCount c n) :=
      ih (partitionRescanCount c n)
    simp only [partitionRescanCounts, List.foldl_cons] at ih2 ⊢
    rw [ih2, partitionRescanCount_eq_max]

/-- With every observation below 2^31 the `int32` casts vanish from the
running maximum. -/
theorem foldl_max_int32cast_eq : ∀ (ns : List Nat),
    (∀ n ∈ ns, (n : Int) < 2 ^ 31) → ∀ c : Int,
    ns.foldl (fun m n => max m (int32cast n)) c =
      ns.foldl (fun m n => max m (n : Int)) c := by
  intro ns
  induction ns with
  | nil => intro _ c; rfl
  | cons n rest ih =>
    intro h c
    simp only [List.foldl_cons]
    rw [int32cast_eq n (h n (List.mem_cons_self n rest))]
    exact ih (fun k hk => h k (List.mem_cons_of_mem n hk)) (max c (n : Int))

/-- Counterexample to claim C4: a rescan observing one partition child stores
count 1; a following rescan observing an empty child list leaves the stored
count at 1, which exceeds the child count (0) of the most recent successful
children listing. -/
theorem partition_count_exceeds_live_cex :
    (runResetPartitionListWatchAndAdd envP1 cfgW "g" "t" 0 false).map Prod.snd =
      some 1 ∧
    (runResetPartitionListWatchAndAdd envP0 cfgW "g" "t" 1 false).map Prod.snd =
      some 1 ∧
    ¬ ((1 : Int) ≤ int32cast (List.length ([] : List String))) :=
  ⟨rfl, rfl, by decide⟩

/-- Claim C4 as amended: after each rescan the stored per-topic partition
count equals the running maximum of the `int32`-cast observed live child
counts (so it is bounded by the maximum observed so far, never by the most
recent listing, which it can exceed after the child list shrinks). -/
theorem partition_count_bounded_by_max (env : ZkEnv) (cfg : Config)
    (g t : String) (c : Int) (children : List String)
    (h1 : env.childrenW (partitionListPath cfg.zookeeperPath g) =
      ChildrenWResult.ok children)
    (h2 : ∀ i : Int, offsetReadOk env cfg g i = true) :
    (runResetPartitionListWatchAndAdd env cfg g t c false).map Prod.snd =
      some (partitionRescanCount c children.length) ∧
    (∀ ns : List Nat, partitionRescanCounts 0 ns =
      ns.foldl (fun m n => max m (int32cast n)) 0) := by
  constructor
  · obtain ⟨o, ho⟩ := runOffsets_isSome_of_ok env cfg g t
      (intsFrom c (int32cast children.length - c).toNat) (fun i _ => h2 i)
    unfold runResetPartitionListWatchAndAdd partitionRescanCount
    rw [h1]
    by_cases hc : c ≤ int32cast children.length
    · simp [hc, ho]
    · simp [hc]
  · intro ns
    exact partitionRescanCounts_eq_foldl_max ns 0

/-- Witness for `partition_count_bounded_by_max` at the one-child ensemble. -/
theorem partition_count_bounded_by_max_witness :
    (runResetPartitionListWatchAndAdd envP1 cfgW "g" "t" 3 false).map Prod.snd =
      some (partitionRescanCount 3 (List.length ["0"])) ∧
    partitionRescanCounts 0 [1, 3, 2] =
      [1, 3, 2].foldl (fun m n => max m (int32cast n)) 0 := by
  have h := partition_count_bounded_by_max envP1 cfgW "g" "t" 3 ["0"] rfl
    (fun i => rfl)
  exact ⟨h.1, h.2 [1, 3, 2]⟩

/-- Claim C5: the stored partition count never decreases, equals the running
maximum of the observed live child counts (exactly the observed counts when
they fit in 31 bits), and when the live count is at least the stored count a
new offset watch is started for exactly the indices in
`[storedCount, liveCount)` (none otherwise), after which the live count is
stored. -/
theorem partition_rescan_growth (env : ZkEnv) (cfg : Config) (g t : String)
    (c : Int) (children : List String)
    (pay : Int → Json) (stt : Int → ZkStat) (tr : Int → Transform)
    (h1 : env.childrenW (partitionListPath cfg.zookeeperPath g) =
      ChildrenWResult.ok children)
    (hp : ∀ i : Int, env.getW (offsetPath cfg.zookeeperPath g i) =
      GetWResult.ok (pay i) (stt i))
    (hd : ∀ i : Int, decodeTransform (pay i) = some (tr i)) :
    (c ≤ int32cast children.length →
      runResetPartitionListWatchAndAdd env cfg g t c false = some
        (⟨⟨Lvl.partitionL, g, partitionListPath cfg.zookeeperPath g⟩ ::
          (intsFrom c (int32cast children.length - c).toNat).map
            (fun i => ⟨Lvl.offsetL, g, offsetPath cfg.zookeeperPath g i⟩),
          (intsFrom c (int32cast children.length - c).toNat).map
            (fun i => ⟨StorageRequestType.StorageSetConsumerOffset, cfg.cluster,
              t, i, g, (stt i).Mtime, (tr i).Offset⟩)⟩,
          int32cast children.length)) ∧
    (¬ c ≤ int32cast children.length →
      runResetPartitionListWatchAndAdd env cfg g t c false =
        some (⟨[⟨Lvl.partitionL, g, partitionListPath cfg.zookeeperPath g⟩], []⟩,
          c)) ∧
    (∀ (cc : Int) (n : Nat), cc ≤ partitionRescanCount cc n) ∧
    (∀ ns : List Nat, (∀ n ∈ ns, (n : Int) < 2 ^ 31) →
      partitionRescanCounts 0 ns = ns.foldl (fun m n => max m (n : Int)) 0) := by
  refine ⟨?_, ?_, ?_, ?_⟩
  · intro hc
    have hoff := runOffsets_spec env cfg g t pay stt tr hp hd
      (intsFrom c (int32cast children.length - c).toNat)
    unfold runResetPartitionListWatchAndAdd
    rw [h1]
    simp [hc, hoff]
  · intro hc
    unfold runResetPartitionListWatchAndAdd
    rw [h1]
    simp [hc]
  · intro cc n
    rw [partitionRescanCount_eq_max]
    exact le_max_left cc (int32cast n)
  · intro ns hns
    rw [partitionRescanCounts_eq_foldl_max ns 0]
    exact foldl_max_int32cast_eq ns hns 0

/-- Witness for `partition_rescan_growth`: ensemble with one partition child,
stored count 0 — one new offset watch for index 0. -/
theorem partition_rescan_growth_witness :
    runResetPartitionListWatchAndAdd envP1 cfgW "g" "t" 0 false = some
      (⟨⟨Lvl.partitionL, "g", partitionListPath cfgW.zookeeperPath "g"⟩ ::
        (intsFrom 0 (int32cast (List.length ["0"]) - 0).toNat).map
          (fun i => ⟨Lvl.offsetL, "g", offsetPath cfgW.zookeeperPath "g" i⟩),
        (intsFrom 0 (int32cast (List.length ["0"]) - 0).toNat).map
          (fun i => ⟨StorageRequestType.StorageSetConsumerOffset, cfgW.cluster,
            "t", i, "g", statW.Mtime, (42 : Int)⟩)⟩,
        int32cast (List.length ["0"])) ∧
    partitionRescanCounts 0 [1, 3, 2] = [1, 3, 2].foldl (fun m n => max m (n : Int)) 0 := by
  have h := partition_rescan_growth envP1 cfgW "g" "t" 0 ["0"]
    (fun _ => payloadW) (fun _ => statW) (fun _ => ⟨"t", 0, 42⟩)
    rfl (fun i => rfl) (fun i => rfl)
  exact ⟨h.1 (by decide), h.2.2.2 [1, 3, 2] (by decide)⟩

/-- Claim C10: the payload `{}` is accepted by the decoder — all fields keep
their zero values, with no required-field validation; the topic-list level
then tracks the empty string as a topic name, and the offset leaf forwards a
request whose offset is 0 (its timestamp still taken from the node stat); a
payload with only unknown fields likewise decodes to the zero record, while
a payload that is not a JSON object (a bare string) is a decode failure. -/
theorem empty_object_decodes_to_zero :
    decodeTransform (Json.obj []) = some Transform.zero ∧
    Transform.zero = ⟨"", 0, 0⟩ ∧
    decodeTransform (Json.obj [("bogus", Json.bool true)]) = some Transform.zero ∧
    runResetTopicListWatchAndAdd envEmptyObj cfgW "g" [] false =
      some (⟨[⟨Lvl.topicL, "g", "/consumers/g/0"⟩], []⟩, [("", 0)]) ∧
    runResetOffsetWatchAndSend envEmptyObj cfgW "g" "t" 0 false =
      some ⟨[⟨Lvl.offsetL, "g", "/consumers/g/0"⟩],
        [⟨StorageRequestType.StorageSetConsumerOffset, "c", "t", 0, "g", 7, 0⟩]⟩ ∧
    decodeTransform (Json.str "x") = none :=
  ⟨rfl, rfl, rfl, rfl, rfl, rfl⟩

/-- Every watch spawned by an offset-leaf pass carries that pass's group. -/
theorem offsetRun_watches_group (env : ZkEnv) (cfg : Config) (g t : String)
    (p : Int) (ro : Bool) (o : RunOut)
    (h : runResetOffsetWatchAndSend env cfg g t p ro = some o) :
    ∀ w ∈ o.watches, w.group = g := by
  cases hg : env.getW (offsetPath cfg.zookeeperPath g p) with
  | err =>
    simp only [runResetOffsetWatchAndSend, hg, Option.some.injEq] at h
    subst h
    intro w hw
    simp at hw
  | ok payload stat =>
    cases hd : decodeTransform payload with
    | none =>
      simp [runResetOffsetWatchAndSend, hg, hd] at h
    | some tr =>
      simp only [runResetOffsetWatchAndSend, hg, hd, Option.some.injEq] at h
      subst h
      intro w hw
      simp only [List.mem_singleton] at hw
      subst hw
      rfl

/-- Every watch spawned by the offset loop carries the loop's group. -/
theorem runOffsets_watches_group (env : ZkEnv) (cfg : Config) (g t : String) :
    ∀ (is : List Int) (o : RunOut), runOffsets env cfg g t is = some o →
    ∀ w ∈ o.watches, w.group = g := by
  intro is
  induction is with
  | nil =>
    intro o h w hw
    simp only [runOffsets, Option.some.injEq] at h
    subst h
    simp at hw
  | cons i rest ih =>
    intro o h w hw
    cases h1 : runResetOffsetWatchAndSend env cfg g t i false with
    | none => simp [runOffsets, h1] at h
    | some o1 =>
      cases h2 : runOffsets env cfg g t rest with
      | none => simp [runOffsets, h1, h2] at h
      | some o2 =>
        simp only [runOffsets, h1, h2, Option.some.injEq] at h
        subst h
        simp only [List.mem_append] at hw
        cases hw with
        | inl hw1 => exact offsetRun_watches_group env cfg g t i false o1 h1 w hw1
        | inr hw2 => exact ih o2 h2 w hw2

/-- Every watch spawned by a partition-list pass carries that pass's group. -/
theorem partitionRun_watches_group (env : ZkEnv) (cfg : Config) (g t : String)
    (c : Int) (ro : Bool) (o : RunOut) (c2 : Int)
    (h : runResetPartitionListWatchAndAdd env cfg g t c ro = some (o, c2)) :
    ∀ w ∈ o.watches, w.group = g := by
  cases hc : env.childrenW (partitionListPath cfg.zookeeperPath g) with
  | err =>
    simp only [runResetPartitionListWatchAndAdd, hc, Option.some.injEq,
      Prod.mk.injEq] at h
    obtain ⟨h1, h2⟩ := h
    subst h1
    intro w hw
    simp at hw
  | ok children =>
    cases ro with
    | true =>
      simp only [runResetPartitionListWatchAndAdd, hc, eq_self_iff_true, if_true,
        Option.some.injEq, Prod.mk.injEq] at h
      obtain ⟨h1, h2⟩ := h
      subst h1
      intro w hw
      simp only [List.mem_singleton] at hw
      subst hw
      rfl
    | false =>
      by_cases hle : c ≤ int32cast children.length
      · cases ho : runOffsets env cfg g t
            (intsFrom c (int32cast children.length - c).toNat) with
        | none =>
          simp [runResetPartitionListWatchAndAdd, hc, hle, ho] at h
        | some out =>
          simp only [runResetPartitionListWatchAndAdd, hc, Bool.false_eq_true,
            if_false, if_pos hle, ho, Option.some.injEq, Prod.mk.injEq] at h
          obtain ⟨h1, h2⟩ := h
          subst h1
          intro w hw
          simp only [List.cons_append, List.nil_append, List.mem_cons] at hw
          cases hw with
          | inl hw1 => subst hw1; rfl
          | inr hw2 => exact runOffsets_watches_group env cfg g t _ out ho w hw2
      · simp only [runResetPartitionListWatchAndAdd, hc, Bool.false_eq_true,
          if_false, if_neg hle, Option.some.injEq, Prod.mk.injEq] at h
        obtain ⟨h1, h2⟩ := h
        subst h1
        intro w hw
        simp only [List.mem_singleton] at hw
        subst hw
        rfl

/-- Every watch spawned by a topic-list pass carries that pass's group. -/
theorem topicRun_watches_group (env : ZkEnv) (cfg : Config) (g : String)
    (topics : TopicMap) (ro : Bool) (o : RunOut) (topics2 : TopicMap)
    (h : runResetTopicListWatchAndAdd env cfg g topics ro = some (o, topics2)) :
    ∀ w ∈ o.watches, w.group = g := by
  cases hg : env.getW (topicListPath cfg.zookeeperPath g) with
  | err =>
    simp only [runResetTopicListWatchAndAdd, hg, Option.some.injEq,
      Prod.mk.injEq] at h
    obtain ⟨h1, h2⟩ := h
    subst h1
    intro w hw
    simp at hw
  | ok payload stat =>
    cases hd : decodeTransform payload with
    | none =>
      simp only [runResetTopicListWatchAndAdd, hg, hd, Option.some.injEq,
        Prod.mk.injEq] at h
      obtain ⟨h1, h2⟩ := h
      subst h1
      intro w hw
      simp at hw
    | some tr =>
      cases ro with
      | true =>
        simp only [runResetTopicListWatchAndAdd, hg, hd, eq_self_iff_true,
          if_true, Option.some.injEq, Prod.mk.injEq] at h
        obtain ⟨h1, h2⟩ := h
        subst h1
        intro w hw
        simp only [List.mem_singleton] at hw
        subst hw
        rfl
      | false =>
        cases hl : lookupA topics tr.Topic with
        | some cnt =>
          simp only [runResetTopicListWatchAndAdd, hg, hd, Bool.false_eq_true,
            if_false, hl, Option.some.injEq, Prod.mk.injEq] at h
          obtain ⟨h1, h2⟩ := h
          subst h1
          intro w hw
          simp only [List.mem_singleton] at hw
          subst hw
          rfl
        | none =>
          cases hp : runResetPartitionListWatchAndAdd env cfg g tr.Topic 0 false with
          | none =>
            simp [runResetTopicListWatchAndAdd, hg, hd, hl, hp] at h
          | some pr =>
            obtain ⟨out2, c2⟩ := pr
            simp only [runResetTopicListWatchAndAdd, hg, hd, Bool.false_eq_true,
              if_false, hl, hp, Option.some.injEq, Prod.mk.injEq] at h
            obtain ⟨h1, h2⟩ := h
            subst h1
            intro w hw
            simp only [List.cons_append, List.nil_append, List.mem_cons] at hw
            cases hw with
            | inl hw1 => subst hw1; rfl
            | inr hw2 =>
              exact partitionRun_watches_group env cfg g tr.Topic 0 false
                out2 c2 hp w hw2

/-- `runGroups` on a filtered-out head is the scan of the tail. -/
theorem runGroups_cons_skip_filter (env : ZkEnv) (cfg : Config) (a : String)
    (rest : List String) (st : GroupMap) (hacc : cfg.accept a = false) :
    runGroups env cfg (a :: rest) st = runGroups env cfg rest st := by
  simp [runGroups, hacc]

/-- `runGroups` on an already-present head is the scan of the tail. -/
theorem runGroups_cons_skip_present (env : ZkEnv) (cfg : Config) (a : String)
    (rest : List String) (st : GroupMap) (tl : TopicMap)
    (hacc : cfg.accept a = true) (hl : lookupA st a = some tl) :
    runGroups env cfg (a :: rest) st = runGroups env cfg rest st := by
  simp [runGroups, hacc, hl]

/-- `runGroups` on a new accepted head: insert it, descend, continue. -/
theorem runGroups_cons_insert (env : ZkEnv) (cfg : Config) (a : String)
    (rest : List String) (st : GroupMap) (out1 : RunOut) (topics2 : TopicMap)
    (hacc : cfg.accept a = true) (hl : lookupA st a = none)
    (ht : runResetTopicListWatchAndAdd env cfg a [] false = some (out1, topics2)) :
    runGroups env cfg (a :: rest) st =
      match runGroups env cfg rest (updateA (st ++ [(a, [])]) a topics2) with
      | none => none
      | some (out2, st4) =>
        some (⟨out1.watches ++ out2.watches, out1.sends ++ out2.sends⟩, st4) := by
  simp [runGroups, hacc, hl, ht]

/-- `runGroups` propagates a panic from the descent into a new head. -/
theorem runGroups_cons_insert_panic (env : ZkEnv) (cfg : Config) (a : String)
    (rest : List String) (st : GroupMap)
    (hacc : cfg.accept a = true) (hl : lookupA st a = none)
    (ht : runResetTopicListWatchAndAdd env cfg a [] false = none) :
    runGroups env cfg (a :: rest) st = none := by
  simp [runGroups, hacc, hl, ht]

/-- After inserting `a` and writing back its scanned topic map, looking the
group up yields exactly that topic map. -/
theorem lookupA_insertUpd_self (st : GroupMap) (a : String) (tl : TopicMap)
    (hl : lookupA st a = none) :
    lookupA (updateA (st ++ [(a, [])]) a tl) a = some tl := by
  refine lookupA_updateA_self (st ++ [(a, [])]) a tl [] ?_
  rw [lookupA_append_none st [(a, [])] a hl]
  simp [lookupA]

/-- Inserting and updating group `a` leaves every other group's entry as it
was. -/
theorem lookupA_insertUpd_ne (st : GroupMap) (a g : String) (tl : TopicMap)
    (hne : g ≠ a) :
    lookupA (updateA (st ++ [(a, [])]) a tl) g = lookupA st g := by
  rw [lookupA_updateA_ne (st ++ [(a, [])]) g a tl hne]
  cases hsg : lookupA st g with
  | some v => rw [lookupA_append_some st [(a, [])] g v hsg]
  | none =>
    rw [lookupA_append_none st [(a, [])] g hsg]
    simp [lookupA, hne]

/-- A topic-list pass preserves key uniqueness of the topic map. -/
theorem topicRun_nodup (env : ZkEnv) (cfg : Config) (g : String)
    (topics : TopicMap) (ro : Bool) (o : RunOut) (topics2 : TopicMap)
    (h : runResetTopicListWatchAndAdd env cfg g topics ro = some (o, topics2))
    (hn : (keysOf topics).Nodup) : (keysOf topics2).Nodup := by
  cases hg : env.getW (topicListPath cfg.zookeeperPath g) with
  | err =>
    simp only [runResetTopicListWatchAndAdd, hg, Option.some.injEq,
      Prod.mk.injEq] at h
    rw [← h.2]
    exact hn
  | ok payload stat =>
    cases hd : decodeTransform payload with
    | none =>
      simp only [runResetTopicListWatchAndAdd, hg, hd, Option.some.injEq,
        Prod.mk.injEq] at h
      rw [← h.2]
      exact hn
    | some tr =>
      cases ro with
      | true =>
        simp only [runResetTopicListWatchAndAdd, hg, hd, eq_self_iff_true,
          if_true, Option.some.injEq, Prod.mk.injEq] at h
        rw [← h.2]
        exact hn
      | false =>
        cases hl : lookupA topics tr.Topic with
        | some cnt =>
          simp only [runResetTopicListWatchAndAdd, hg, hd, Bool.false_eq_true,
            if_false, hl, Option.some.injEq, Prod.mk.injEq] at h
          rw [← h.2]
          exact hn
        | none =>
          cases hp : runResetPartitionListWatchAndAdd env cfg g tr.Topic 0 false with
          | none => simp [runResetTopicListWatchAndAdd, hg, hd, hl, hp] at h
          | some pr =>
            obtain ⟨out2, cnt2⟩ := pr
            simp only [runResetTopicListWatchAndAdd, hg, hd, Bool.false_eq_true,
              if_false, hl, hp, Option.some.injEq, Prod.mk.injEq] at h
            rw [← h.2, keysOf_updateA]
            exact nodup_keys_insert topics tr.Topic 0 hn hl

/-- The group scan never changes (in particular never re-inserts) the entry
of a group that was already present when it started. -/
theorem runGroups_lookup_preserved (env : ZkEnv) (cfg : Config) :
    ∀ (gs : List String) (st : GroupMap) (out : RunOut) (st2 : GroupMap),
    runGroups env cfg gs st = some (out, st2) →
    ∀ (g : String) (v : TopicMap), lookupA st g = some v → lookupA st2 g = some v := by
  intro gs
  induction gs with
  | nil =>
    intro st out st2 h g v hv
    simp only [runGroups, Option.some.injEq, Prod.mk.injEq] at h
    rw [← h.2]
    exact hv
  | cons a rest ih =>
    intro st out st2 h g v hv
    by_cases hacc : cfg.accept a = true
    · cases hla : lookupA st a with
      | some tl =>
        rw [runGroups_cons_skip_present env cfg a rest st tl hacc hla] at h
        exact ih st out st2 h g v hv
      | none =>
        cases ht : runResetTopicListWatchAndAdd env cfg a [] false with
        | none => rw [runGroups_cons_insert_panic env cfg a rest st hacc hla ht] at h; cases h
        | some pr =>
          obtain ⟨out1, topics2⟩ := pr
          rw [runGroups_cons_insert env cfg a rest st out1 topics2 hacc hla ht] at h
          cases hrg : runGroups env cfg rest (updateA (st ++ [(a, [])]) a topics2) with
          | none => rw [hrg] at h; cases h
          | some pr2 =>
            obtain ⟨out2, st4⟩ := pr2
            rw [hrg] at h
            simp only [Option.some.injEq, Prod.mk.injEq] at h
            rw [← h.2]
            have hga : g ≠ a := by
              intro he
              rw [he] at hv
              rw [hla] at hv
              cases hv
            exact ih _ out2 st4 hrg g v
              (by rw [lookupA_insertUpd_ne st a g topics2 hga]; exact hv)
    · rw [runGroups_cons_skip_filter env cfg a rest st
        (by revert hacc; cases cfg.accept a <;> simp)] at h
      exact ih st out st2 h g v hv

/-- A group that is absent and is never an accepted scanned name stays
absent. -/
theorem runGroups_absent_preserved (env : ZkEnv) (cfg : Config) :
    ∀ (gs : List String) (st : GroupMap) (out : RunOut) (st2 : GroupMap),
    runGroups env cfg gs st = some (out, st2) →
    ∀ g : String, lookupA st g = none → (cfg.accept g = false ∨ g ∉ gs) →
    lookupA st2 g = none := by
  intro gs
  induction gs with
  | nil =>
    intro st out st2 h g hg _
    simp only [runGroups, Option.some.injEq, Prod.mk.injEq] at h
    rw [← h.2]
    exact hg
  | cons a rest ih =>
    intro st out st2 h g hg hcond
    have hcond2 : cfg.accept g = false ∨ g ∉ rest := by
      cases hcond with
      | inl hf => exact Or.inl hf
      | inr hnm => exact Or.inr fun hm => hnm (List.mem_cons_of_mem a hm)
    by_cases hacc : cfg.accept a = true
    · cases hla : lookupA st a with
      | some tl =>
        rw [runGroups_cons_skip_present env cfg a rest st tl hacc hla] at h
        exact ih st out st2 h g hg hcond2
      | none =>
        have hga : g ≠ a := by
          intro he
          cases hcond with
          | inl hf => rw [he, hacc] at hf; cases hf
          | inr hnm => exact hnm (he ▸ List.mem_cons_self a rest)
        cases ht : runResetTopicListWatchAndAdd env cfg a [] false with
        | none =>
          rw [runGroups_cons_insert_panic env cfg a rest st hacc hla ht] at h
          cases h
        | some pr =>
          obtain ⟨out1, topics2⟩ := pr
          rw [runGroups_cons_insert env cfg a rest st out1 topics2 hacc hla ht] at h
          cases hrg : runGroups env cfg rest (updateA (st ++ [(a, [])]) a topics2) with
          | none => rw [hrg] at h; cases h
          | some pr2 =>
            obtain ⟨out2, st4⟩ := pr2
            rw [hrg] at h
            simp only [Option.some.injEq, Prod.mk.injEq] at h
            rw [← h.2]
            exact ih _ out2 st4 hrg g
              (by rw [lookupA_insertUpd_ne st a g topics2 hga]; exact hg) hcond2
    · rw [runGroups_cons_skip_filter env cfg a rest st
        (by revert hacc; cases cfg.accept a <;> simp)] at h
      exact ih st out st2 h g hg hcond2

/-- The group scan preserves key uniqueness of the group map. -/
theorem runGroups_nodup (env : ZkEnv) (cfg : Config) :
    ∀ (gs : List String) (st : GroupMap) (out : RunOut) (st2 : GroupMap),
    runGroups env cfg gs st = some (out, st2) →
    (keysOf st).Nodup → (keysOf st2).Nodup := by
  intro gs
  induction gs with
  | nil =>
    intro st out st2 h hn
    simp only [runGroups, Option.some.injEq, Prod.mk.injEq] at h
    rw [← h.2]
    exact hn
  | cons a rest ih =>
    intro st out st2 h hn
    by_cases hacc : cfg.accept a = true
    · cases hla : lookupA st a with
      | some tl =>
        rw [runGroups_cons_skip_present env cfg a rest st tl hacc hla] at h
        exact ih st out st2 h hn
      | none =>
        cases ht : runResetTopicListWatchAndAdd env cfg a [] false with
        | none =>
          rw [runGroups_cons_insert_panic env cfg a rest st hacc hla ht] at h
          cases h
        | some pr =>
          obtain ⟨out1, topics2⟩ := pr
          rw [runGroups_cons_insert env cfg a rest st out1 topics2 hacc hla ht] at h
          cases hrg : runGroups env cfg rest (updateA (st ++ [(a, [])]) a topics2) with
          | none => rw [hrg] at h; cases h
          | some pr2 =>
            obtain ⟨out2, st4⟩ := pr2
            rw [hrg] at h
            simp only [Option.some.injEq, Prod.mk.injEq] at h
            rw [← h.2]
            refine ih _ out2 st4 hrg ?_
            rw [keysOf_updateA]
            exact nodup_keys_insert st a [] hn hla
    · rw [runGroups_cons_skip_filter env cfg a rest st
        (by revert hacc; cases cfg.accept a <;> simp)] at h
      exact ih st out st2 h hn

/-- The group scan spawns no topic-list watch for a group that was already
present when the scan started (its subtree watch is not restarted). -/
theorem runGroups_no_topicWatch_for_present (env : ZkEnv) (cfg : Config) :
    ∀ (gs : List String) (st : GroupMap) (out : RunOut) (st2 : GroupMap),
    runGroups env cfg gs st = some (out, st2) →
    ∀ (g : String) (v : TopicMap), lookupA st g = some v →
    ∀ w ∈ out.watches, w.lvl = Lvl.topicL → w.group ≠ g := by
  intro gs
  induction gs with
  | nil =>
    intro st out st2 h g v hv w hw _
    simp only [runGroups, Option.some.injEq, Prod.mk.injEq] at h
    rw [← h.1] at hw
    simp at hw
  | cons a rest ih =>
    intro st out st2 h g v hv w hw hlvl
    by_cases hacc : cfg.accept a = true
    · cases hla : lookupA st a with
      | some tl =>
        rw [runGroups_cons_skip_present env cfg a rest st tl hacc hla] at h
        exact ih st out st2 h g v hv w hw hlvl
      | none =>
        have hga : g ≠ a := by
          intro he
          rw [he, hla] at hv
          cases hv
        cases ht : runResetTopicListWatchAndAdd env cfg a [] false with
        | none =>
          rw [runGroups_cons_insert_panic env cfg a rest st hacc hla ht] at h
          cases h
        | some pr =>
          obtain ⟨out1, topics2⟩ := pr
          rw [runGroups_cons_insert env cfg a rest st out1 topics2 hacc hla ht] at h
          cases hrg : runGroups env cfg rest (updateA (st ++ [(a, [])]) a topics2) with
          | none => rw [hrg] at h; cases h
          | some pr2 =>
            obtain ⟨out2, st4⟩ := pr2
            rw [hrg] at h
            simp only [Option.some.injEq, Prod.mk.injEq] at h
            rw [← h.1] at hw
            simp only [List.mem_append] at hw
            cases hw with
            | inl hw1 =>
              have := topicRun_watches_group env cfg a [] false out1 topics2 ht w hw1
              rw [this]
              exact fun he => hga he.symm
            | inr hw2 =>
              exact ih _ out2 st4 hrg g v
                (by rw [lookupA_insertUpd_ne st a g topics2 hga]; exact hv) w hw2 hlvl
    · rw [runGroups_cons_skip_filter env cfg a rest st
        (by revert hacc; cases cfg.accept a <;> simp)] at h
      exact ih st out st2 h g v hv w hw hlvl

/-- Every topic map the group scan installs for a newly discovered group has
unique topic keys. -/
theorem runGroups_new_value_nodup (env : ZkEnv) (cfg : Config) :
    ∀ (gs : List String) (st : GroupMap) (out : RunOut) (st2 : GroupMap),
    runGroups env cfg gs st = some (out, st2) →
    ∀ (g : String) (tl : TopicMap), lookupA st g = none →
    lookupA st2 g = some tl → (keysOf tl).Nodup := by
  intro gs
  induction gs with
  | nil =>
    intro st out st2 h g tl hg htl
    simp only [runGroups, Option.some.injEq, Prod.mk.injEq] at h
    rw [← h.2] at htl
    rw [hg] at htl
    cases htl
  | cons a rest ih =>
    intro st out st2 h g tl hg htl
    by_cases hacc : cfg.accept a = true
    · cases hla : lookupA st a with
      | some tlB =>
        rw [runGroups_cons_skip_present env cfg a rest st tlB hacc hla] at h
        exact ih st out st2 h g tl hg htl
      | none =>
        cases ht : runResetTopicListWatchAndAdd env cfg a [] false with
        | none =>
          rw [runGroups_cons_insert_panic env cfg a rest st hacc hla ht] at h
          cases h
        | some pr =>
          obtain ⟨out1, topics2⟩ := pr
          rw [runGroups_cons_insert env cfg a rest st out1 topics2 hacc hla ht] at h
          cases hrg : runGroups env cfg rest (updateA (st ++ [(a, [])]) a topics2) with
          | none => rw [hrg] at h; cases h
          | some pr2 =>
            obtain ⟨out2, st4⟩ := pr2
            rw [hrg] at h
            simp only [Option.some.injEq, Prod.mk.injEq] at h
            by_cases hga : g = a
            · subst hga
              have hself : lookupA (updateA (st ++ [(g, [])]) g topics2) g =
                  some topics2 := lookupA_insertUpd_self st g topics2 hla
              have hpres := runGroups_lookup_preserved env cfg rest _ out2 st4 hrg
                g topics2 hself
              rw [← h.2] at htl
              rw [hpres] at htl
              have htl2 : topics2 = tl := Option.some.inj htl
              rw [← htl2]
              exact topicRun_nodup env cfg g [] false out1 topics2 ht List.nodup_nil
            · rw [← h.2] at htl
              exact ih _ out2 st4 hrg g tl
                (by rw [lookupA_insertUpd_ne st a g topics2 hga]; exact hg) htl
    · rw [runGroups_cons_skip_filter env cfg a rest st
        (by revert hacc; cases cfg.accept a <;> simp)] at h
      exact ih st out st2 h g tl hg htl

/-- Claim C7: after a group-list scan, group-map keys stay unique (and every
newly installed topic map has unique keys — insertion at both levels is
insert-if-absent); a group already present keeps its entry unchanged and no
topic-list watch is restarted for it; a group failing the filter is never
inserted; and a topic-list pass whose decoded topic is already tracked
re-arms only its own watch, changing nothing and descending nowhere. -/
theorem group_scan_idempotent (env : ZkEnv) (cfg : Config) (st : GroupMap)
    (out : RunOut) (st2 : GroupMap)
    (h : runResetGroupListWatchAndAdd env cfg st false = some (out, st2)) :
    ((keysOf st).Nodup → (keysOf st2).Nodup) ∧
    (∀ (g : String) (v : TopicMap), lookupA st g = some v →
      lookupA st2 g = some v ∧
      ∀ w ∈ out.watches, w.lvl = Lvl.topicL → w.group ≠ g) ∧
    (∀ g : String, cfg.accept g = false → lookupA st g = none →
      lookupA st2 g = none) ∧
    (∀ (g : String) (tl : TopicMap), lookupA st g = none →
      lookupA st2 g = some tl → (keysOf tl).Nodup) ∧
    (∀ (gname : String) (topics : TopicMap) (payload : Json) (stat : ZkStat)
      (tr : Transform) (cnt : Int),
      env.getW (topicListPath cfg.zookeeperPath gname) = GetWResult.ok payload stat →
      decodeTransform payload = some tr → lookupA topics tr.Topic = some cnt →
      runResetTopicListWatchAndAdd env cfg gname topics false =
        some (⟨[⟨Lvl.topicL, gname, topicListPath cfg.zookeeperPath gname⟩], []⟩,
          topics)) := by
  have hconj5 : ∀ (gname : String) (topics : TopicMap) (payload : Json)
      (stat : ZkStat) (tr : Transform) (cnt : Int),
      env.getW (topicListPath cfg.zookeeperPath gname) = GetWResult.ok payload stat →
      decodeTransform payload = some tr → lookupA topics tr.Topic = some cnt →
      runResetTopicListWatchAndAdd env cfg gname topics false =
        some (⟨[⟨Lvl.topicL, gname, topicListPath cfg.zookeeperPath gname⟩], []⟩,
          topics) := by
    intro gname topics payload stat tr cnt hgw hdec hlk
    simp [runResetTopicListWatchAndAdd, hgw, hdec, hlk]
  cases hc : env.childrenW cfg.zookeeperPath with
  | err =>
    simp only [runResetGroupListWatchAndAdd, hc, Option.some.injEq,
      Prod.mk.injEq] at h
    refine ⟨?_, ?_, ?_, ?_, hconj5⟩
    · intro hn; rw [← h.2]; exact hn
    · intro g v hv
      refine ⟨by rw [← h.2]; exact hv, ?_⟩
      intro w hw
      rw [← h.1] at hw
      simp at hw
    · intro g _ hg; rw [← h.2]; exact hg
    · intro g tl hg htl
      rw [← h.2] at htl
      rw [hg] at htl
      cases htl
  | ok consumerGroups =>
    cases hrg : runGroups env cfg consumerGroups st with
    | none => simp [runResetGroupListWatchAndAdd, hc, hrg] at h
    | some pr =>
      obtain ⟨outg, stg⟩ := pr
      simp only [runResetGroupListWatchAndAdd, hc, Bool.false_eq_true, if_false,
        hrg, Option.some.injEq, Prod.mk.injEq] at h
      refine ⟨?_, ?_, ?_, ?_, hconj5⟩
      · intro hn
        rw [← h.2]
        exact runGroups_nodup env cfg consumerGroups st outg stg hrg hn
      · intro g v hv
        constructor
        · rw [← h.2]
          exact runGroups_lookup_preserved env cfg consumerGroups st outg stg
            hrg g v hv
        · intro w hw hlvl
          rw [← h.1] at hw
          simp only [List.cons_append, List.nil_append, List.mem_cons] at hw
          cases hw with
          | inl hw1 =>
            rw [hw1] at hlvl
            cases hlvl
          | inr hw2 =>
            exact runGroups_no_topicWatch_for_present env cfg consumerGroups
              st outg stg hrg g v hv w hw2 hlvl
      · intro g hacc hg
        rw [← h.2]
        exact runGroups_absent_preserved env cfg consumerGroups st outg stg
          hrg g hg (Or.inl hacc)
      · intro g tl hg htl
        rw [← h.2] at htl
        exact runGroups_new_value_nodup env cfg consumerGroups st outg stg
          hrg g tl hg htl

/-- Witness for `group_scan_idempotent`: a scan discovering "g" next to the
pre-existing "h" (and, under the reject-all config, discovering nothing). -/
theorem group_scan_idempotent_witness :
    (keysOf [("h", [("x", 5)]), ("g", [("t", 1)])] : List String).Nodup ∧
    lookupA ([("h", [("x", 5)]), ("g", [("t", 1)])] : GroupMap) "h" =
      some [("x", 5)] ∧
    ("g" : String) ≠ "h" ∧
    (keysOf [("t", 1)] : List String).Nodup ∧
    runResetTopicListWatchAndAdd envW cfgW "g" [("t", 9)] false =
      some (⟨[⟨Lvl.topicL, "g", topicListPath cfgW.zookeeperPath "g"⟩], []⟩,
        [("t", 9)]) ∧
    lookupA ([("h", [("x", 5)])] : GroupMap) "g" = none := by
  have h := group_scan_idempotent envW cfgW [("h", [("x", 5)])]
    ⟨[⟨Lvl.groupL, "", "/consumers"⟩, ⟨Lvl.topicL, "g", "/consumers/g/0"⟩,
      ⟨Lvl.partitionL, "g", "/consumers/g"⟩, ⟨Lvl.offsetL, "g", "/consumers/g/0"⟩],
     [⟨StorageRequestType.StorageSetConsumerOffset, "c", "t", 0, "g", 100, 42⟩]⟩
    [("h", [("x", 5)]), ("g", [("t", 1)])] rfl
  have hB := group_scan_idempotent envW cfgB [("h", [("x", 5)])]
    ⟨[⟨Lvl.groupL, "", "/consumers"⟩], []⟩ [("h", [("x", 5)])] rfl
  refine ⟨h.1 (by decide), (h.2.1 "h" [("x", 5)] rfl).1, ?_, ?_, ?_, ?_⟩
  · exact (h.2.1 "h" [("x", 5)] rfl).2 ⟨Lvl.topicL, "g", "/consumers/g/0"⟩
      (List.Mem.tail _ (List.Mem.head _)) rfl
  · exact h.2.2.2.1 "g" [("t", 1)] rfl rfl
  · exact h.2.2.2.2 "g" [("t", 9)] payloadW statW ⟨"t", 0, 42⟩ 9 rfl rfl rfl
  · exact hB.2.2.1 "g" rfl rfl

end BurrowZk


